import Mathlib

/-!
Shallow embedding of `src/sdp.py` (class `SDP`).

The program studies the pencil M(x,y,z) = xA + yB + zC + D of symmetric
5×5 matrices.  Mutable instance state of the Python class `SDP` is modelled
by the structure `SDPState`; each method becomes a state-passing function.

External collaborators are modelled as oracles supplied to the functions
that invoke them, exactly at the call sites where the Python code calls
them:

* the cvxpy SDP solver (`cvx.Problem(...).solve()` / `cvx.get_status`) is
  an oracle delivering, per trial, a status and a minimizing point for each
  of the two sub-problems (`Trial`);
* `scipy.linalg.svd` is an oracle `Mat5 → Mat5 × (Fin 5 → ℚ) × Mat5`
  returning the triple (U, s, Vh) that the source indexes as
  `svd[0]`, `svd[1]`, `svd[2]`;
* the external `singular` process (`subprocess.check_output`) is an oracle
  `Except PyErr String`;
* the handler argument of `get_nodes` is an oracle list of candidate
  points, and `self.eigenvalues` as used by `get_nodes`/`process` is an
  oracle function `eig : Point → EigVec`.

Numeric values (Python floats) are modelled as rationals so that every
definition is executable; the only non-rational operation in the source,
the Euclidean norm `scipy.linalg.norm`, enters only through comparisons
`‖x−y‖₂ ≤ tolerance·max ‖node‖₂`, which are embedded by the equivalent
squared comparison `matchB` on rationals (with an explicit sign guard for
a negative tolerance).  The bridge lemma `matchB_iff_sqrt` proves this
comparison equivalent to the source's comparison of real square roots.

A run of the program is a list of method calls (`Op`) executed from the
freshly constructed object (`initState`).  An uncaught Python exception
aborts the run (`runOps` returns `none`); state changes after the raising
statement are not modelled.  Two ghost fields `psd_attempts` /
`nsd_attempts` (not in the source) count how often the guarded blocks
`if self.psd_spec:` / `if self.nsd_spec:` of `solve` are entered, i.e. how
often the corresponding sub-problem is constructed and handed to the
solver; no source behaviour depends on them.
-/

namespace SDPVerify

/-- A point (x, y, z) of parameter space; Python list `[x.value, y.value, z.value]`. -/
abbrev Point : Type := ℚ × ℚ × ℚ

/-- An eigenvalue vector of the 5×5 pencil, `self.eigenvalues(vector)`. -/
abbrev EigVec : Type := Fin 5 → ℚ

/-- A 5×5 matrix with rational entries. -/
abbrev Mat5 : Type := Fin 5 → Fin 5 → ℚ

/-- Solver status as consumed by `solve` (`cvx.get_status`): the three
recognized constants `cvx.SOLVED`, `cvx.INFEASIBLE`, `cvx.UNBOUNDED`, and
`other` standing for any further status the solver may report (the source
compares only against the three constants, so all unrecognized statuses
behave identically). -/
inductive Status
  | solved
  | infeasible
  | unbounded
  | other
  deriving DecidableEq

/-- Python exceptions that the modelled code can raise:
`nameError` for reading the unassigned local `psd_status` in `solve`
(lines 172/175), `calledProcessError` for a failing
`subprocess.check_output` in `get_nodes_from_singular` (line 91). -/
inductive PyErr
  | nameError
  | calledProcessError
  deriving DecidableEq

/-- Oracle data of one trial of `solve` (lines 145–178): status and
minimizing point reported by the external solver for the PSD sub-problem
`[T == spec]` and for the NSD sub-problem `[T == -spec]`.  The random
objective `c` influences only what the solver returns, so it is absorbed
into the oracle. -/
structure Trial where
  psdStatus : Status
  psdPoint : Point
  nsdStatus : Status
  nsdPoint : Point

/-- The mutable instance state of class `SDP` (lines 22–36), plus the two
ghost attempt counters described in the file comment. -/
structure SDPState where
  /-- `self.mins`: raw minimizing points of solved sub-problems. -/
  mins : List Point
  /-- `self.pmins`: elements `[point, occurrence_count, eigenvalues]`. -/
  pmins : List (Point × ℕ × EigVec)
  /-- `self.nodes`: elements `[point, probability, eigenvalues]`. -/
  nodes : List (Point × ℚ × EigVec)
  /-- `self.spec_nodes`: spectrahedral nodes `[point, eigenvalues]`. -/
  spec_nodes : List (Point × EigVec)
  /-- `self.sym_nodes`: symmetroid nodes `[point, eigenvalues]`. -/
  sym_nodes : List (Point × EigVec)
  /-- `self.trials`. -/
  trials : ℕ
  /-- `self.psd_spec`. -/
  psd_spec : Bool
  /-- `self.nsd_spec`. -/
  nsd_spec : Bool
  /-- `self.fully_bounded_directions`. -/
  fully_bounded_directions : ℕ
  /-- `self.fully_unbounded_directions`. -/
  fully_unbounded_directions : ℕ
  /-- Ghost: number of entries into the `if self.psd_spec:` block of `solve`. -/
  psd_attempts : ℕ
  /-- Ghost: number of entries into the `if self.nsd_spec:` block of `solve`. -/
  nsd_attempts : ℕ

/-- The state after `__init__` (lines 22–36): empty buffers, zero counters,
both component flags true.  The matrices A, B, C, D are immutable after
construction and are passed separately where needed. -/
def initState : SDPState :=
  ⟨[], [], [], [], [], 0, true, true, 0, 0, 0, 0⟩

/-- Lines 65–70, `SDP.matrix`: the pencil value (xA + yB + zC + D) at a
point, formed entrywise. -/
def matrixAt (A B C D : Mat5) (v : Point) : Mat5 :=
  fun i j => v.1 * A i j + v.2.1 * B i j + v.2.2 * C i j + D i j

/-- Lines 73–80, `SDP.eigenvalues`: take the SVD triple
`(U, s, Vh) = linalg.svd(self.matrix(vector))` from the oracle `svdO` and
flip the sign of the i-th singular value exactly when
`svd[0][i,i] * svd[2][i,i] < 0`.  The loop runs over all indices. -/
def eigenvalues (svdO : Mat5 → Mat5 × (Fin 5 → ℚ) × Mat5)
    (A B C D : Mat5) (v : Point) : EigVec :=
  fun i =>
    let svd := svdO (matrixAt A B C D v)
    if svd.1 i i * svd.2.2 i i < 0 then -(svd.2.1 i) else svd.2.1 i

/-- Lines 86–93, `SDP.get_nodes_from_singular`: write the script to a
fresh temporary file, run `singular` on it via `subprocess.check_output`
(the oracle `invocation`; `Except.error` means the call raised), then
`os.remove` the file and parse the output.  The returned Bool records
whether `os.remove(tmpfile)` executed before control left the function:
when the invocation raises, the exception propagates immediately and the
removal on line 92 is never reached.  The pure text parser
`parse_singular_output` (lines 112–120) is irrelevant to the file
lifecycle and is abstracted as `parse`. -/
def get_nodes_from_singular (invocation : Except PyErr String)
    (parse : String → List Point) : Except PyErr (List Point) × Bool :=
  match invocation with
  | Except.error e => (Except.error e, false)
  | Except.ok out => (Except.ok (parse out), true)

/-- Lines 156–163 of `SDP.solve`: the PSD block of one trial.  `pl` is the
Python local variable `psd_status`, which is assigned only inside the
guarded block (`none` = not yet assigned in this call of `solve`).
Returns the updated state and the updated local. -/
def psdPhase (s : SDPState) (pl : Option Status) (t : Trial) :
    SDPState × Option Status :=
  if s.psd_spec then
    let s1 := { s with psd_attempts := s.psd_attempts + 1 }
    if t.psdStatus = Status.solved then
      ({ s1 with mins := s1.mins ++ [t.psdPoint] }, some t.psdStatus)
    else if t.psdStatus = Status.infeasible then
      ({ s1 with psd_spec := false }, some t.psdStatus)
    else (s1, some t.psdStatus)
  else (s, pl)

/-- Lines 166–178 of `SDP.solve`: the NSD block of one trial.  Reading the
local `psd_status` while it is unassigned (`pl = none`) raises NameError;
this happens in the `solved` branch (line 172) and, because `and`
short-circuits, in the `unbounded` branch only after `nsd_status`
compared equal to UNBOUNDED (line 174–175).  The state mutations Python
performs before such a raise are dropped together with the aborted run. -/
def nsdPhase (s : SDPState) (pl : Option Status) (t : Trial) :
    Except PyErr SDPState :=
  if s.nsd_spec then
    let s1 := { s with nsd_attempts := s.nsd_attempts + 1 }
    match t.nsdStatus with
    | Status.solved =>
        let s2 := { s1 with mins := s1.mins ++ [t.nsdPoint] }
        match pl with
        | none => Except.error PyErr.nameError
        | some ps =>
            if ps = Status.solved then
              Except.ok { s2 with
                fully_bounded_directions := s2.fully_bounded_directions + 1 }
            else Except.ok s2
    | Status.unbounded =>
        match pl with
        | none => Except.error PyErr.nameError
        | some ps =>
            if ps = Status.unbounded then
              Except.ok { s1 with
                fully_unbounded_directions := s1.fully_unbounded_directions + 1 }
            else Except.ok s1
    | Status.infeasible => Except.ok { s1 with nsd_spec := false }
    | Status.other => Except.ok s1
  else Except.ok s

/-- One iteration of the `for i in range(n)` loop of `solve`
(lines 145–178): the PSD block followed by the NSD block, threading the
local `psd_status`. -/
def solveTrial (sp : SDPState × Option Status) (t : Trial) :
    Except PyErr (SDPState × Option Status) :=
  let q := psdPhase sp.1 sp.2 t
  match nsdPhase q.1 q.2 t with
  | Except.error e => Except.error e
  | Except.ok s2 => Except.ok (s2, q.2)

/-- The whole trial loop of `solve`; an exception aborts the loop. -/
def solveLoop : SDPState × Option Status → List Trial →
    Except PyErr (SDPState × Option Status)
  | sp, [] => Except.ok sp
  | sp, t :: ts =>
      match solveTrial sp t with
      | Except.error e => Except.error e
      | Except.ok sp2 => solveLoop sp2 ts

/-- Lines 143–180, `SDP.solve(n)`: run the n trials described by the
oracle list `ts` (so `n = ts.length`), starting with the local
`psd_status` unassigned, and finally execute `self.trials += n`
(line 180; skipped when the loop raised). -/
def solve (s : SDPState) (ts : List Trial) : Except PyErr SDPState :=
  match solveLoop (s, none) ts with
  | Except.error e => Except.error e
  | Except.ok sp => Except.ok { sp.1 with trials := sp.1.trials + ts.length }

/-- Lines 193–194 of `SDP.get_nodes`: the classification test
`(e[0] >= 0 and e[1] >= 0 and e[2] >= 0) or
 (e[0] <= 0 and e[1] <= 0 and e[2] <= 0)`. -/
def specCond (e : EigVec) : Bool :=
  (decide (0 ≤ e 0) && decide (0 ≤ e 1) && decide (0 ≤ e 2))
    || (decide (e 0 ≤ 0) && decide (e 1 ≤ 0) && decide (e 2 ≤ 0))

/-- Lines 183–197, `SDP.get_nodes`: for each candidate point from the
handler in order, compute its eigenvalues and append `[vector, e]` to
`self.spec_nodes` when `specCond` holds, otherwise to `self.sym_nodes`. -/
def get_nodes (eig : Point → EigVec) : List Point → SDPState → SDPState
  | [], s => s
  | v :: cs, s =>
      let e := eig v
      get_nodes eig cs
        (if specCond e then { s with spec_nodes := s.spec_nodes ++ [(v, e)] }
         else { s with sym_nodes := s.sym_nodes ++ [(v, e)] })

/-- Squared Euclidean norm of a point; `linalg.norm(y[0]) ** 2`. -/
def normSq (p : Point) : ℚ :=
  p.1 ^ 2 + p.2.1 ^ 2 + p.2.2 ^ 2

/-- Squared Euclidean distance; `linalg.norm(numpy.array(x) - yy) ** 2`. -/
def distSq (p q : Point) : ℚ :=
  (p.1 - q.1) ^ 2 + (p.2.1 - q.2.1) ^ 2 + (p.2.2 - q.2.2) ^ 2

/-- Python `max` over a nonempty list (the `[]` case is never reached at
call sites, which are guarded exactly as the source guards `max`). -/
def lmax {α : Type _} [LinearOrder α] [Zero α] : List α → α
  | [] => 0
  | [x] => x
  | x :: y :: t => max x (lmax (y :: t))

/-- The matching test of `process` (line 217), `delta <= maxdelta` with
`delta = ‖x−y‖₂` and `maxdelta = tolerance · max ‖node‖₂`, written on the
squares: for `d2 = delta²` and `maxNS = (max ‖node‖₂)²` the source
comparison is equivalent to `maxdelta ≥ 0` and `d2 ≤ tolerance² · maxNS`
(lemma `matchB_iff_sqrt` below), and `maxdelta ≥ 0` is equivalent to
`0 ≤ tolerance ∨ maxNS = 0`. -/
def matchB (tol maxNS d2 : ℚ) : Bool :=
  decide ((0 ≤ tol ∨ maxNS = 0) ∧ d2 ≤ tol ^ 2 * maxNS)

/-- Lines 207–210 of `SDP.process`: if both node sets are empty, run
`self.get_nodes()` (candidates supplied by the oracle `cands`) and rebuild
`self.pmins` as `[[node[0], 0, node[1]] for node in self.spec_nodes]`. -/
def discoveryPhase (eig : Point → EigVec) (cands : List Point)
    (s : SDPState) : SDPState :=
  if s.spec_nodes.isEmpty && s.sym_nodes.isEmpty then
    let s1 := get_nodes eig cands s
    { s1 with pmins := s1.spec_nodes.map (fun nd => (nd.1, 0, nd.2)) }
  else s

/-- The squared maximum node norm,
`max([linalg.norm(y[0]) for y in self.pmins]) ** 2` (line 212); the single
global quantity from which the matching threshold is derived. -/
def maxNormSqOf (l : List (Point × ℕ × EigVec)) : ℚ :=
  lmax (l.map (fun y => normSq y.1))

/-- Lines 211–220 of `SDP.process`: if `self.pmins` is nonempty, compute
the single global threshold
`maxdelta = tolerance * max([linalg.norm(y[0]) for y in self.pmins])`,
then for every node `y` and every raw minimum `x` increment the node's
count when `norm(x − y[0]) <= maxdelta`; finally clear `self.mins`. -/
def matchingPhase (tol : ℚ) (s : SDPState) : SDPState :=
  let s2 :=
    if s.pmins.isEmpty then s
    else
      { s with pmins := s.pmins.map (fun y =>
          (y.1,
           y.2.1 + s.mins.countP
             (fun x => matchB tol (maxNormSqOf s.pmins) (distSq x y.1)),
           y.2.2)) }
  { s2 with mins := [] }

/-- Lines 200–220, `SDP.process(tolerance)`. -/
def process (eig : Point → EigVec) (cands : List Point) (tol : ℚ)
    (s : SDPState) : SDPState :=
  matchingPhase tol (discoveryPhase eig cands s)

/-- Default argument `tolerance=1e-3` of `process`. -/
def defaultTolerance : ℚ := 1 / 1000

/-- Descending-by-probability comparison used to model line 238,
`self.nodes.sort(key=lambda x: x[1], reverse=True)`. -/
def nodeGE (a b : Point × ℚ × EigVec) : Prop := b.2.1 ≤ a.2.1

instance : DecidableRel nodeGE :=
  fun a b => inferInstanceAs (Decidable (b.2.1 ≤ a.2.1))

/-- A stable sort by descending probability, modelling Python's stable
`list.sort(key=lambda x: x[1], reverse=True)`. -/
def sortNodesDesc (l : List (Point × ℚ × EigVec)) : List (Point × ℚ × EigVec) :=
  l.insertionSort nodeGE

/-- Lines 223–241, `SDP.gen_nodes`: lazily re-run `process` (with its
default tolerance) when raw minima are pending or no symmetroid nodes are
known; then rebuild `self.nodes`, dividing each occurrence count by
`self.trials` only when the trial counter is nonzero (`is not 0` on a
CPython small int is value inequality) and sorting by descending
probability, and otherwise reporting probability 0 for every node. -/
def gen_nodes (eig : Point → EigVec) (cands : List Point)
    (s : SDPState) : SDPState :=
  let s1 := if !s.mins.isEmpty || s.sym_nodes.isEmpty then
      process eig cands defaultTolerance s
    else s
  if s1.trials ≠ 0 then
    { s1 with nodes := sortNodesDesc (s1.pmins.map
        (fun i => (i.1, (i.2.1 : ℚ) / (s1.trials : ℚ), i.2.2))) }
  else
    { s1 with nodes := s1.pmins.map (fun i => (i.1, (0 : ℚ), i.2.2)) }

/-- One public method call on the `SDP` object, with the oracle data its
external collaborators return during that call. -/
inductive Op
  | solveOp (ts : List Trial)
  | getNodesOp (cands : List Point)
  | processOp (cands : List Point) (tol : ℚ)
  | genNodesOp (cands : List Point)

/-- Execute one method call. Only `solve` can raise in this model. -/
def step (eig : Point → EigVec) : Op → SDPState → Except PyErr SDPState
  | Op.solveOp ts, s => solve s ts
  | Op.getNodesOp cands, s => Except.ok (get_nodes eig cands s)
  | Op.processOp cands tol, s => Except.ok (process eig cands tol s)
  | Op.genNodesOp cands, s => Except.ok (gen_nodes eig cands s)

/-- A run: execute the calls in order; an uncaught exception aborts the
run (`none`). -/
def runOps (eig : Point → EigVec) : List Op → SDPState → Option SDPState
  | [], s => some s
  | op :: ops, s =>
      match step eig op s with
      | Except.error _ => none
      | Except.ok s1 => runOps eig ops s1

/-! ## Concrete inputs used by witnesses and counterexamples -/

/-- An eigenvalue oracle returning all-zero signatures. -/
def eigZero : Point → EigVec := fun _ _ => 0

/-- A sample point. -/
def p0 : Point := (1, 0, 0)

/-- A trial whose two sub-problems both report an unrecognized status. -/
def trialOther : Trial := ⟨Status.other, (0, 0, 0), Status.other, (0, 0, 0)⟩

/-- A trial whose two sub-problems both report `solved` at `p0`. -/
def trialSolvedBoth : Trial := ⟨Status.solved, p0, Status.solved, p0⟩

/-- Default element for indexing `pmins` lists. -/
def pdflt : Point × ℕ × EigVec := ((0, 0, 0), 0, fun _ => 0)

/-- A constant SVD oracle: U has diagonal 1, singular values 2,
Vh has diagonal -1. -/
def svdW : Mat5 → Mat5 × (Fin 5 → ℚ) × Mat5 :=
  fun _ => (fun _ _ => 1, fun _ => 2, fun _ _ => -1)

/-- The zero 5×5 matrix. -/
def zMat : Mat5 := fun _ _ => 0

/-! ## Structural lemmas about `get_nodes` -/

/-- Closed form of the classification loop: spectrahedral candidates are
appended (in order) to `spec_nodes`, the rest to `sym_nodes`. -/
lemma get_nodes_eq (eig : Point → EigVec) :
    ∀ (cands : List Point) (s : SDPState),
      get_nodes eig cands s = { s with
        spec_nodes := s.spec_nodes
          ++ (cands.filter (fun v => specCond (eig v))).map (fun v => (v, eig v)),
        sym_nodes := s.sym_nodes
          ++ (cands.filter (fun v => !specCond (eig v))).map (fun v => (v, eig v)) }
  | [], s => by simp [get_nodes]
  | v :: cs, s => by
      by_cases h : specCond (eig v) = true
      · simp only [get_nodes]
        rw [if_pos h, get_nodes_eq eig cs]
        simp [List.filter_cons, h, List.append_assoc]
      · simp only [get_nodes]
        rw [if_neg h, get_nodes_eq eig cs]
        simp only [Bool.not_eq_true] at h
        simp [List.filter_cons, h, List.append_assoc]

lemma length_filter_add_length_filter_not {α : Type _} (p : α → Bool)
    (l : List α) :
    (l.filter p).length + (l.filter (fun a => !p a)).length = l.length := by
  induction l with
  | nil => rfl
  | cons a t ih => cases hpa : p a <;> simp [List.filter_cons, hpa] <;> omega

/-- C8: every candidate point returned by the handler is appended to
exactly one of the two node sets: to `spec_nodes` when its first three
eigenvalues are all ≥ 0 or all ≤ 0 (`specCond`), and to `sym_nodes`
otherwise; together the two sets absorb every candidate, so the
classification is exhaustive and exclusive. -/
theorem classification_exhaustive_exclusive (eig : Point → EigVec)
    (cands : List Point) (s : SDPState) :
    (get_nodes eig cands s).spec_nodes
      = s.spec_nodes
        ++ (cands.filter (fun v => specCond (eig v))).map (fun v => (v, eig v)) ∧
    (get_nodes eig cands s).sym_nodes
      = s.sym_nodes
        ++ (cands.filter (fun v => !specCond (eig v))).map (fun v => (v, eig v)) ∧
    (get_nodes eig cands s).spec_nodes.length
        + (get_nodes eig cands s).sym_nodes.length
      = s.spec_nodes.length + s.sym_nodes.length + cands.length := by
  rw [get_nodes_eq eig cands s]
  refine ⟨rfl, rfl, ?_⟩
  have h := length_filter_add_length_filter_not (fun v => specCond (eig v)) cands
  simp only [List.length_append, List.length_map]
  omega

/-! ## C5: temporary-file lifecycle of `get_nodes_from_singular` -/

/-- C5 counterexample: when the `singular` invocation raises, the
temporary file is NOT deleted before the call returns (the flag is
`false`), contradicting the claim that it is deleted even on failure. -/
theorem tmpfile_leaked_on_solver_failure :
    (get_nodes_from_singular (Except.error PyErr.calledProcessError)
      (fun _ => [])).2 = false := rfl

/-- C5 amended: the temporary file is deleted before the call returns
exactly when the external solver invocation succeeds; when the invocation
raises, the exception propagates and the file is left behind. -/
theorem tmpfile_deleted_iff_invocation_succeeds
    (parse : String → List Point) (out : String) (e : PyErr) :
    (get_nodes_from_singular (Except.ok out) parse).2 = true ∧
    get_nodes_from_singular (Except.error e) parse = (Except.error e, false) :=
  ⟨rfl, rfl⟩

/-! ## C7: sign-corrected eigenvalues -/

/-- C7: `eigenvalues` returns, entrywise for all n = 5 indices, the i-th
singular value with its sign flipped exactly when the product of the i-th
diagonal entries of the left (`svd[0]`) and right (`svd[2]`)
singular-vector matrices is negative; in particular its absolute value is
the i-th singular value (which the SVD oracle reports nonnegative). -/
theorem eigenvalues_sign_corrected (svdO : Mat5 → Mat5 × (Fin 5 → ℚ) × Mat5)
    (A B C D : Mat5) (v : Point) (i : Fin 5)
    (hs : 0 ≤ (svdO (matrixAt A B C D v)).2.1 i) :
    |eigenvalues svdO A B C D v i| = (svdO (matrixAt A B C D v)).2.1 i ∧
    eigenvalues svdO A B C D v i =
      (if (svdO (matrixAt A B C D v)).1 i i
            * (svdO (matrixAt A B C D v)).2.2 i i < 0
       then -((svdO (matrixAt A B C D v)).2.1 i)
       else (svdO (matrixAt A B C D v)).2.1 i) := by
  have he : eigenvalues svdO A B C D v i =
      (if (svdO (matrixAt A B C D v)).1 i i
            * (svdO (matrixAt A B C D v)).2.2 i i < 0
       then -((svdO (matrixAt A B C D v)).2.1 i)
       else (svdO (matrixAt A B C D v)).2.1 i) := rfl
  refine ⟨?_, he⟩
  rw [he]
  split_ifs with h
  · rw [abs_neg]; exact abs_of_nonneg hs
  · exact abs_of_nonneg hs

/-- Witness for C7 at a concrete SVD oracle with negative diagonal-phase
product: the corrected eigenvalue is the negated singular value. -/
theorem eigenvalues_sign_corrected_witness :
    |eigenvalues svdW zMat zMat zMat zMat (0, 0, 0) 0| = 2 ∧
    eigenvalues svdW zMat zMat zMat zMat (0, 0, 0) 0 = -2 := by
  have h := eigenvalues_sign_corrected svdW zMat zMat zMat zMat (0, 0, 0) 0
    (by norm_num [svdW])
  constructor
  · simpa [svdW] using h.1
  · have h2 := h.2
    norm_num [svdW] at h2
    exact h2

/-! ## C10: reading the unassigned local `psd_status` -/

/-- C10: entering `solve` with `psd_spec` already false and `nsd_spec`
true, a first trial whose NSD sub-problem reports solved or unbounded
makes the body read the local `psd_status` before any assignment to it in
this call, so the call raises NameError instead of completing the
trials. -/
theorem stale_psd_status_raises_nameerror (s : SDPState) (t : Trial)
    (ts : List Trial) (hp : s.psd_spec = false) (hn : s.nsd_spec = true)
    (hst : t.nsdStatus = Status.solved ∨ t.nsdStatus = Status.unbounded) :
    solve s (t :: ts) = Except.error PyErr.nameError := by
  have hpsd : psdPhase s none t = (s, none) := by simp [psdPhase, hp]
  have hnsd : nsdPhase s none t = Except.error PyErr.nameError := by
    rcases hst with h | h <;> simp [nsdPhase, hn, h]
  simp [solve, solveLoop, solveTrial, hpsd, hnsd]

/-- Witness for C10: from a latched-PSD state, one NSD-solved trial
raises NameError. -/
theorem stale_psd_status_raises_nameerror_witness :
    solve { initState with psd_spec := false } [trialSolvedBoth]
      = Except.error PyErr.nameError :=
  stale_psd_status_raises_nameerror { initState with psd_spec := false }
    trialSolvedBoth [] rfl rfl (Or.inl rfl)

/-! ## C4: unrecognized solver statuses -/

/-- C4 counterexample: a trial whose sub-problems report a status outside
the three recognized constants raises nothing — `solve` returns normally
(no `SolverStatusError` exists anywhere in the code), merely skipping the
trial's contribution. -/
theorem unknown_status_raises_no_error :
    solve initState [trialOther]
      = Except.ok { initState with
          trials := 1, psd_attempts := 1, nsd_attempts := 1 } := rfl

/-- C4 amended: a sub-problem status outside
{solved, infeasible, unbounded} raises no exception; the sub-problem's
contribution is silently skipped (the state is unchanged apart from the
ghost attempt counters) and the loop continues with the remaining
trials. -/
theorem unknown_status_skipped_run_continues (s : SDPState)
    (pl : Option Status) (t : Trial) (ts : List Trial)
    (hp : t.psdStatus = Status.other) (hn : t.nsdStatus = Status.other) :
    psdPhase s pl t
      = ({ s with psd_attempts := s.psd_attempts + (if s.psd_spec then 1 else 0) },
         if s.psd_spec then some Status.other else pl) ∧
    nsdPhase s pl t
      = Except.ok { s with
          nsd_attempts := s.nsd_attempts + (if s.nsd_spec then 1 else 0) } ∧
    solveLoop (s, pl) (t :: ts)
      = solveLoop
          ({ s with
              psd_attempts := s.psd_attempts + (if s.psd_spec then 1 else 0),
              nsd_attempts := s.nsd_attempts + (if s.nsd_spec then 1 else 0) },
           if s.psd_spec then some Status.other else pl) ts := by
  obtain ⟨mins, pmins, nodes, spec, sym, trials, ps, ns, fbd, fud, pa, na⟩ := s
  cases ps <;> cases ns <;>
    simp [psdPhase, nsdPhase, solveTrial, solveLoop, hp, hn]

/-- Witness for C4 amended at the initial state and a both-other trial. -/
theorem unknown_status_skipped_run_continues_witness :
    psdPhase initState none trialOther
      = ({ initState with psd_attempts := 1 }, some Status.other) ∧
    nsdPhase initState none trialOther
      = Except.ok { initState with nsd_attempts := 1 } ∧
    solveLoop (initState, none) [trialOther]
      = solveLoop ({ initState with psd_attempts := 1, nsd_attempts := 1 },
          some Status.other) [] := by
  have h := unknown_status_skipped_run_continues initState none trialOther []
    rfl rfl
  exact h

/-! ## Field-preservation lemmas for the solve phases -/

lemma psdPhase_fields (s : SDPState) (pl : Option Status) (t : Trial) :
    (psdPhase s pl t).1.pmins = s.pmins ∧
    (psdPhase s pl t).1.nodes = s.nodes ∧
    (psdPhase s pl t).1.spec_nodes = s.spec_nodes ∧
    (psdPhase s pl t).1.sym_nodes = s.sym_nodes ∧
    (psdPhase s pl t).1.trials = s.trials ∧
    (psdPhase s pl t).1.nsd_spec = s.nsd_spec ∧
    (psdPhase s pl t).1.nsd_attempts = s.nsd_attempts ∧
    (psdPhase s pl t).1.fully_bounded_directions = s.fully_bounded_directions ∧
    (psdPhase s pl t).1.fully_unbounded_directions
      = s.fully_unbounded_directions ∧
    (psdPhase s pl t).1.mins.length ≤ s.mins.length + 1 := by
  unfold psdPhase
  split_ifs <;> refine ⟨rfl, rfl, rfl, rfl, rfl, rfl, rfl, rfl, rfl, ?_⟩ <;>
    simp

lemma psdPhase_false (s : SDPState) (pl : Option Status) (t : Trial)
    (h : s.psd_spec = false) : psdPhase s pl t = (s, pl) := by
  simp [psdPhase, h]

lemma psdPhase_true (s : SDPState) (pl : Option Status) (t : Trial)
    (h : s.psd_spec = true) :
    (psdPhase s pl t).2 = some t.psdStatus ∧
    ((psdPhase s pl t).1.psd_spec = false → t.psdStatus = Status.infeasible) ∧
    (psdPhase s pl t).1.psd_attempts = s.psd_attempts + 1 := by
  unfold psdPhase
  rw [if_pos h]
  split_ifs <;> simp_all

lemma nsdPhase_ok_fields (s : SDPState) (pl : Option Status) (t : Trial)
    (s' : SDPState) (h : nsdPhase s pl t = Except.ok s') :
    s'.pmins = s.pmins ∧
    s'.nodes = s.nodes ∧
    s'.spec_nodes = s.spec_nodes ∧
    s'.sym_nodes = s.sym_nodes ∧
    s'.trials = s.trials ∧
    s'.psd_spec = s.psd_spec ∧
    s'.psd_attempts = s.psd_attempts ∧
    s'.mins.length ≤ s.mins.length + 1 ∧
    (s.nsd_spec = false → s' = s) := by
  unfold nsdPhase at h
  by_cases hns : s.nsd_spec = true
  · rw [if_pos hns] at h
    cases hts : t.nsdStatus <;> rw [hts] at h <;> cases pl <;> dsimp only at h
    all_goals try (exact Except.noConfusion h)
    all_goals try (split at h)
    all_goals (injection h with h2; subst h2; simp [hns])
  · rw [if_neg hns] at h
    injection h with h2
    subst h2
    simp

lemma solveTrial_ok_parts (sp : SDPState × Option Status) (t : Trial)
    (sp' : SDPState × Option Status) (h : solveTrial sp t = Except.ok sp') :
    nsdPhase (psdPhase sp.1 sp.2 t).1 (psdPhase sp.1 sp.2 t).2 t
      = Except.ok sp'.1 ∧
    sp'.2 = (psdPhase sp.1 sp.2 t).2 := by
  unfold solveTrial at h
  dsimp only at h
  cases hn : nsdPhase (psdPhase sp.1 sp.2 t).1 (psdPhase sp.1 sp.2 t).2 t with
  | error e => rw [hn] at h; exact absurd h (by simp)
  | ok s2 =>
      rw [hn] at h
      injection h with h2
      subst h2
      exact ⟨rfl, rfl⟩

lemma solveTrial_ok_fields (sp : SDPState × Option Status) (t : Trial)
    (sp' : SDPState × Option Status) (h : solveTrial sp t = Except.ok sp') :
    sp'.1.pmins = sp.1.pmins ∧
    sp'.1.nodes = sp.1.nodes ∧
    sp'.1.trials = sp.1.trials ∧
    sp'.1.mins.length ≤ sp.1.mins.length + 2 := by
  obtain ⟨hn, _⟩ := solveTrial_ok_parts sp t sp' h
  have hp := psdPhase_fields sp.1 sp.2 t
  have hq := nsdPhase_ok_fields _ _ t _ hn
  refine ⟨?_, ?_, ?_, ?_⟩
  · rw [hq.1, hp.1]
  · rw [hq.2.1, hp.2.1]
  · rw [hq.2.2.2.2.1, hp.2.2.2.2.1]
  · have h1 := hq.2.2.2.2.2.2.2.1
    have h2 := hp.2.2.2.2.2.2.2.2.2
    omega

lemma solveLoop_ok_fields :
    ∀ (ts : List Trial) (sp sp' : SDPState × Option Status),
      solveLoop sp ts = Except.ok sp' →
      sp'.1.pmins = sp.1.pmins ∧
      sp'.1.nodes = sp.1.nodes ∧
      sp'.1.trials = sp.1.trials ∧
      sp'.1.mins.length ≤ sp.1.mins.length + 2 * ts.length
  | [], sp, sp', h => by
      injection h with h2
      subst h2
      simp
  | t :: ts, sp, sp', h => by
      unfold solveLoop at h
      cases hst : solveTrial sp t with
      | error e => rw [hst] at h; simp at h
      | ok sp2 =>
          rw [hst] at h
          have ih := solveLoop_ok_fields ts sp2 sp' h
          have ht := solveTrial_ok_fields sp t sp2 hst
          refine ⟨by rw [ih.1, ht.1], by rw [ih.2.1, ht.2.1],
            by rw [ih.2.2.1, ht.2.2.1], ?_⟩
          have h1 := ih.2.2.2
          have h2 := ht.2.2.2
          simp only [List.length_cons]
          omega

lemma solve_ok_fields (s : SDPState) (ts : List Trial) (s' : SDPState)
    (h : solve s ts = Except.ok s') :
    s'.pmins = s.pmins ∧
    s'.nodes = s.nodes ∧
    s'.trials = s.trials + ts.length ∧
    s'.mins.length ≤ s.mins.length + 2 * ts.length := by
  unfold solve at h
  cases hl : solveLoop (s, none) ts with
  | error e => rw [hl] at h; simp at h
  | ok sp =>
      rw [hl] at h
      injection h with h2
      subst h2
      have hf := solveLoop_ok_fields ts (s, none) sp hl
      exact ⟨hf.1, hf.2.1, by rw [hf.2.2.1], hf.2.2.2⟩

/-! ## Field-preservation lemmas for the processing pipeline -/

lemma get_nodes_fields (eig : Point → EigVec) (cands : List Point)
    (s : SDPState) :
    (get_nodes eig cands s).mins = s.mins ∧
    (get_nodes eig cands s).pmins = s.pmins ∧
    (get_nodes eig cands s).nodes = s.nodes ∧
    (get_nodes eig cands s).trials = s.trials ∧
    (get_nodes eig cands s).psd_spec = s.psd_spec ∧
    (get_nodes eig cands s).nsd_spec = s.nsd_spec ∧
    (get_nodes eig cands s).psd_attempts = s.psd_attempts ∧
    (get_nodes eig cands s).nsd_attempts = s.nsd_attempts := by
  rw [get_nodes_eq eig cands s]
  exact ⟨rfl, rfl, rfl, rfl, rfl, rfl, rfl, rfl⟩

lemma discoveryPhase_fields (eig : Point → EigVec) (cands : List Point)
    (s : SDPState) :
    (discoveryPhase eig cands s).mins = s.mins ∧
    (discoveryPhase eig cands s).nodes = s.nodes ∧
    (discoveryPhase eig cands s).trials = s.trials ∧
    (discoveryPhase eig cands s).psd_spec = s.psd_spec ∧
    (discoveryPhase eig cands s).nsd_spec = s.nsd_spec ∧
    (discoveryPhase eig cands s).psd_attempts = s.psd_attempts ∧
    (discoveryPhase eig cands s).nsd_attempts = s.nsd_attempts := by
  unfold discoveryPhase
  split_ifs with h
  · rw [get_nodes_eq eig cands s]
    exact ⟨rfl, rfl, rfl, rfl, rfl, rfl, rfl⟩
  · exact ⟨rfl, rfl, rfl, rfl, rfl, rfl, rfl⟩

lemma matchingPhase_fields (tol : ℚ) (s : SDPState) :
    (matchingPhase tol s).mins = [] ∧
    (matchingPhase tol s).nodes = s.nodes ∧
    (matchingPhase tol s).trials = s.trials ∧
    (matchingPhase tol s).psd_spec = s.psd_spec ∧
    (matchingPhase tol s).nsd_spec = s.nsd_spec ∧
    (matchingPhase tol s).psd_attempts = s.psd_attempts ∧
    (matchingPhase tol s).nsd_attempts = s.nsd_attempts := by
  unfold matchingPhase
  split_ifs <;> exact ⟨rfl, rfl, rfl, rfl, rfl, rfl, rfl⟩

lemma process_fields (eig : Point → EigVec) (cands : List Point) (tol : ℚ)
    (s : SDPState) :
    (process eig cands tol s).mins = [] ∧
    (process eig cands tol s).nodes = s.nodes ∧
    (process eig cands tol s).trials = s.trials ∧
    (process eig cands tol s).psd_spec = s.psd_spec ∧
    (process eig cands tol s).nsd_spec = s.nsd_spec ∧
    (process eig cands tol s).psd_attempts = s.psd_attempts ∧
    (process eig cands tol s).nsd_attempts = s.nsd_attempts := by
  have hm := matchingPhase_fields tol (discoveryPhase eig cands s)
  have hd := discoveryPhase_fields eig cands s
  unfold process
  exact ⟨hm.1, by rw [hm.2.1, hd.2.1], by rw [hm.2.2.1, hd.2.2.1],
    by rw [hm.2.2.2.1, hd.2.2.2.1], by rw [hm.2.2.2.2.1, hd.2.2.2.2.1],
    by rw [hm.2.2.2.2.2.1, hd.2.2.2.2.2.1],
    by rw [hm.2.2.2.2.2.2, hd.2.2.2.2.2.2]⟩

lemma gen_nodes_fields (eig : Point → EigVec) (cands : List Point)
    (s : SDPState) :
    (gen_nodes eig cands s).trials = s.trials ∧
    (gen_nodes eig cands s).psd_spec = s.psd_spec ∧
    (gen_nodes eig cands s).nsd_spec = s.nsd_spec ∧
    (gen_nodes eig cands s).psd_attempts = s.psd_attempts ∧
    (gen_nodes eig cands s).nsd_attempts = s.nsd_attempts := by
  have hp := process_fields eig cands defaultTolerance s
  unfold gen_nodes
  by_cases h1 : (!s.mins.isEmpty || s.sym_nodes.isEmpty) = true <;>
    simp only [h1, if_pos, if_neg, Bool.not_eq_true, ite_true, ite_false] <;>
    split_ifs <;>
    simp_all

/-! ## C2: the sticky component flags -/

lemma solveTrial_latch (sp : SDPState × Option Status) (t : Trial)
    (sp' : SDPState × Option Status) (h : solveTrial sp t = Except.ok sp') :
    (sp.1.psd_spec = false →
      sp'.1.psd_spec = false ∧ sp'.1.psd_attempts = sp.1.psd_attempts) ∧
    (sp.1.nsd_spec = false →
      sp'.1.nsd_spec = false ∧ sp'.1.nsd_attempts = sp.1.nsd_attempts) := by
  obtain ⟨hn, _⟩ := solveTrial_ok_parts sp t sp' h
  have hq := nsdPhase_ok_fields _ _ t _ hn
  have hp := psdPhase_fields sp.1 sp.2 t
  constructor
  · intro hfalse
    rw [psdPhase_false sp.1 sp.2 t hfalse] at hq
    exact ⟨by rw [hq.2.2.2.2.2.1, hfalse], hq.2.2.2.2.2.2.1⟩
  · intro hfalse
    have hns : (psdPhase sp.1 sp.2 t).1.nsd_spec = false := by
      rw [hp.2.2.2.2.2.1, hfalse]
    have heq := hq.2.2.2.2.2.2.2.2 hns
    rw [heq, hns, hp.2.2.2.2.2.2.1]
    exact ⟨rfl, rfl⟩

lemma solveLoop_latch :
    ∀ (ts : List Trial) (sp sp' : SDPState × Option Status),
      solveLoop sp ts = Except.ok sp' →
      (sp.1.psd_spec = false →
        sp'.1.psd_spec = false ∧ sp'.1.psd_attempts = sp.1.psd_attempts) ∧
      (sp.1.nsd_spec = false →
        sp'.1.nsd_spec = false ∧ sp'.1.nsd_attempts = sp.1.nsd_attempts)
  | [], sp, sp', h => by
      injection h with h2
      subst h2
      simp
  | t :: ts, sp, sp', h => by
      unfold solveLoop at h
      cases hst : solveTrial sp t with
      | error e => rw [hst] at h; exact Except.noConfusion h
      | ok sp2 =>
          rw [hst] at h
          have ih := solveLoop_latch ts sp2 sp' h
          have ht := solveTrial_latch sp t sp2 hst
          constructor
          · intro hfalse
            obtain ⟨h1, h2⟩ := ht.1 hfalse
            obtain ⟨h3, h4⟩ := ih.1 h1
            exact ⟨h3, by rw [h4, h2]⟩
          · intro hfalse
            obtain ⟨h1, h2⟩ := ht.2 hfalse
            obtain ⟨h3, h4⟩ := ih.2 h1
            exact ⟨h3, by rw [h4, h2]⟩

lemma solve_latch (s : SDPState) (ts : List Trial) (s' : SDPState)
    (h : solve s ts = Except.ok s') :
    (s.psd_spec = false →
      s'.psd_spec = false ∧ s'.psd_attempts = s.psd_attempts) ∧
    (s.nsd_spec = false →
      s'.nsd_spec = false ∧ s'.nsd_attempts = s.nsd_attempts) := by
  unfold solve at h
  cases hl : solveLoop (s, none) ts with
  | error e => rw [hl] at h; exact Except.noConfusion h
  | ok sp =>
      rw [hl] at h
      injection h with h2
      subst h2
      exact solveLoop_latch ts (s, none) sp hl

lemma step_latch (eig : Point → EigVec) (op : Op) (s s' : SDPState)
    (h : step eig op s = Except.ok s') :
    (s.psd_spec = false →
      s'.psd_spec = false ∧ s'.psd_attempts = s.psd_attempts) ∧
    (s.nsd_spec = false →
      s'.nsd_spec = false ∧ s'.nsd_attempts = s.nsd_attempts) := by
  cases op with
  | solveOp ts => exact solve_latch s ts s' h
  | getNodesOp cands =>
      injection h with h2
      subst h2
      have hg := get_nodes_fields eig cands s
      rw [hg.2.2.2.2.1, hg.2.2.2.2.2.1, hg.2.2.2.2.2.2.1, hg.2.2.2.2.2.2.2]
      exact ⟨fun hf => ⟨hf, rfl⟩, fun hf => ⟨hf, rfl⟩⟩
  | processOp cands tol =>
      injection h with h2
      subst h2
      have hg := process_fields eig cands tol s
      rw [hg.2.2.2.1, hg.2.2.2.2.1, hg.2.2.2.2.2.1, hg.2.2.2.2.2.2]
      exact ⟨fun hf => ⟨hf, rfl⟩, fun hf => ⟨hf, rfl⟩⟩
  | genNodesOp cands =>
      injection h with h2
      subst h2
      have hg := gen_nodes_fields eig cands s
      rw [hg.2.1, hg.2.2.1, hg.2.2.2.1, hg.2.2.2.2]
      exact ⟨fun hf => ⟨hf, rfl⟩, fun hf => ⟨hf, rfl⟩⟩

/-- C2: over any run of method calls, once `psd_spec` (respectively
`nsd_spec`) is false it stays false — no later trial outcome resets it —
and the corresponding sub-problem is never attempted again: the ghost
counter of entries into the guarded solver block does not move. -/
theorem latch_monotone (eig : Point → EigVec) (ops : List Op)
    (s s' : SDPState) (h : runOps eig ops s = some s') :
    (s.psd_spec = false →
      s'.psd_spec = false ∧ s'.psd_attempts = s.psd_attempts) ∧
    (s.nsd_spec = false →
      s'.nsd_spec = false ∧ s'.nsd_attempts = s.nsd_attempts) := by
  induction ops generalizing s with
  | nil =>
      injection h with h2
      subst h2
      simp
  | cons op ops ih =>
      unfold runOps at h
      cases hst : step eig op s with
      | error e => rw [hst] at h; exact Option.noConfusion h
      | ok s1 =>
          rw [hst] at h
          have h1 := step_latch eig op s s1 hst
          have h2 := ih s1 h
          constructor
          · intro hfalse
            obtain ⟨ha, hb⟩ := h1.1 hfalse
            obtain ⟨hc, hd⟩ := h2.1 ha
            exact ⟨hc, by rw [hd, hb]⟩
          · intro hfalse
            obtain ⟨ha, hb⟩ := h1.2 hfalse
            obtain ⟨hc, hd⟩ := h2.2 ha
            exact ⟨hc, by rw [hd, hb]⟩

/-- A state with both component flags already latched false. -/
def c2s0 : SDPState := { initState with psd_spec := false, nsd_spec := false }

/-- Witness for C2: a further solve call leaves both latches false and
attempts no sub-problem. -/
theorem latch_monotone_witness :
    ({ c2s0 with trials := 1 } : SDPState).psd_spec = false ∧
    ({ c2s0 with trials := 1 } : SDPState).psd_attempts = c2s0.psd_attempts ∧
    ({ c2s0 with trials := 1 } : SDPState).nsd_spec = false ∧
    ({ c2s0 with trials := 1 } : SDPState).nsd_attempts = c2s0.nsd_attempts := by
  have h := latch_monotone eigZero [Op.solveOp [trialOther]] c2s0
    { c2s0 with trials := 1 } rfl
  exact ⟨(h.1 rfl).1, (h.1 rfl).2, (h.2 rfl).1, (h.2 rfl).2⟩

/-! ## C3: `fully_bounded_directions` counts same-trial double solves -/

/-- Within one call of `solve`, whenever `psd_spec` is false the local
`psd_status` is either unassigned or holds `infeasible` (the status that
latched the flag); in particular it never holds a stale `solved`. -/
lemma solveTrial_pl_inv (sp : SDPState × Option Status) (t : Trial)
    (sp' : SDPState × Option Status) (h : solveTrial sp t = Except.ok sp')
    (hinv : sp.1.psd_spec = false →
      sp.2 = none ∨ sp.2 = some Status.infeasible) :
    sp'.1.psd_spec = false →
      sp'.2 = none ∨ sp'.2 = some Status.infeasible := by
  obtain ⟨hn, hpl⟩ := solveTrial_ok_parts sp t sp' h
  have hq := nsdPhase_ok_fields _ _ t _ hn
  intro hfalse
  have hps : (psdPhase sp.1 sp.2 t).1.psd_spec = false := by
    rw [← hq.2.2.2.2.2.1]; exact hfalse
  by_cases hp : sp.1.psd_spec = true
  · have ht := psdPhase_true sp.1 sp.2 t hp
    have h2 : t.psdStatus = Status.infeasible := ht.2.1 hps
    rw [hpl, ht.1, h2]
    exact Or.inr rfl
  · have hp' : sp.1.psd_spec = false := by simpa using hp
    rw [hpl, psdPhase_false sp.1 sp.2 t hp']
    exact hinv hp'

lemma solveLoop_pl_inv :
    ∀ (ts : List Trial) (sp sp' : SDPState × Option Status),
      solveLoop sp ts = Except.ok sp' →
      (sp.1.psd_spec = false →
        sp.2 = none ∨ sp.2 = some Status.infeasible) →
      (sp'.1.psd_spec = false →
        sp'.2 = none ∨ sp'.2 = some Status.infeasible)
  | [], sp, sp', h, hinv => by
      injection h with h2
      subst h2
      exact hinv
  | t :: ts, sp, sp', h, hinv => by
      unfold solveLoop at h
      cases hst : solveTrial sp t with
      | error e => rw [hst] at h; exact Except.noConfusion h
      | ok sp2 =>
          rw [hst] at h
          exact solveLoop_pl_inv ts sp2 sp' h
            (solveTrial_pl_inv sp t sp2 hst hinv)

/-- What the NSD block does to `fully_bounded_directions`: it increments
exactly when the block runs, this trial's NSD status is solved, and the
local `psd_status` holds `solved`. -/
lemma nsdPhase_fbd (s : SDPState) (pl : Option Status) (t : Trial)
    (s' : SDPState) (h : nsdPhase s pl t = Except.ok s') :
    s'.fully_bounded_directions = s.fully_bounded_directions +
      (if s.nsd_spec = true ∧ t.nsdStatus = Status.solved ∧
           pl = some Status.solved then 1 else 0) := by
  unfold nsdPhase at h
  by_cases hns : s.nsd_spec = true
  · rw [if_pos hns] at h
    cases hts : t.nsdStatus <;> rw [hts] at h <;> cases pl <;> dsimp only at h
    all_goals try (exact Except.noConfusion h)
    all_goals try (split at h)
    all_goals (injection h with h2; subst h2; simp_all)
  · rw [if_neg hns] at h
    injection h with h2
    subst h2
    simp_all

lemma solveTrial_fbd (sp : SDPState × Option Status) (t : Trial)
    (sp' : SDPState × Option Status) (h : solveTrial sp t = Except.ok sp')
    (hinv : sp.1.psd_spec = false →
      sp.2 = none ∨ sp.2 = some Status.infeasible) :
    sp'.1.fully_bounded_directions = sp.1.fully_bounded_directions +
      (if sp.1.psd_spec = true ∧ t.psdStatus = Status.solved ∧
           sp.1.nsd_spec = true ∧ t.nsdStatus = Status.solved
       then 1 else 0) := by
  obtain ⟨hn, hpl⟩ := solveTrial_ok_parts sp t sp' h
  have hq := nsdPhase_fbd _ _ t _ hn
  have hp := psdPhase_fields sp.1 sp.2 t
  rw [hq, hp.2.2.2.2.2.2.2.1, hp.2.2.2.2.2.1]
  by_cases hpp : sp.1.psd_spec = true
  · have ht := psdPhase_true sp.1 sp.2 t hpp
    rw [ht.1]
    by_cases h1 : t.psdStatus = Status.solved <;>
      by_cases h2 : sp.1.nsd_spec = true <;>
      by_cases h3 : t.nsdStatus = Status.solved <;>
      simp [hpp, h1, h2, h3]
  · have hp' : sp.1.psd_spec = false := by simpa using hpp
    rw [psdPhase_false sp.1 sp.2 t hp']
    rcases hinv hp' with h0 | h0 <;> simp [h0, hp']

/-- C3: in a run of `solve` started with the local `psd_status`
unassigned, a trial increments `fully_bounded_directions` exactly when the
PSD and NSD sub-problems of that same trial both return `solved` (with
both component flags still set, so both sub-problems were attempted); a
stale PSD result from an earlier trial, or an unattempted PSD sub-problem,
never contributes. -/
theorem fully_bounded_same_trial (s0 : SDPState) (pre : List Trial)
    (t : Trial) (s : SDPState) (pl : Option Status)
    (hpre : solveLoop (s0, none) pre = Except.ok (s, pl))
    (s' : SDPState) (pl' : Option Status)
    (hstep : solveTrial (s, pl) t = Except.ok (s', pl')) :
    s'.fully_bounded_directions = s.fully_bounded_directions +
      (if s.psd_spec = true ∧ t.psdStatus = Status.solved ∧
           s.nsd_spec = true ∧ t.nsdStatus = Status.solved
       then 1 else 0) := by
  have hinv := solveLoop_pl_inv pre (s0, none) (s, pl) hpre
    (fun _ => Or.inl rfl)
  exact solveTrial_fbd (s, pl) t (s', pl') hstep hinv

/-- The state after one trial whose two sub-problems both solved at `p0`,
entered from the initial state. -/
def c3Final : SDPState :=
  { initState with
      mins := [p0, p0]
      fully_bounded_directions := 1
      psd_attempts := 1
      nsd_attempts := 1 }

/-- Witness for C3: a first trial with both sub-problems solved increments
the counter by one. -/
theorem fully_bounded_same_trial_witness :
    c3Final.fully_bounded_directions
      = initState.fully_bounded_directions + 1 := by
  have h := fully_bounded_same_trial initState [] trialSolvedBoth initState
    none rfl c3Final (some Status.solved) (by rfl)
  simpa [initState, trialSolvedBoth] using h

/-! ## C1: bounds on reported probabilities -/

/-- Run invariant behind the probability bound: at most two raw minima are
appended per trial (PSD-solved and NSD-solved), occurrence counts absorb
cleared minima, and already-computed rankings are bounded. -/
def ProbInv (s : SDPState) : Prop :=
  s.mins.length ≤ 2 * s.trials ∧
  (∀ y ∈ s.pmins, y.2.1 + s.mins.length ≤ 2 * s.trials) ∧
  (∀ r ∈ s.nodes, 0 ≤ r.2.1 ∧ r.2.1 ≤ 2)

lemma probInv_init : ProbInv initState := by
  refine ⟨by simp [initState], ?_, ?_⟩ <;> intro y hy <;>
    simp [initState] at hy

lemma probInv_solve (s : SDPState) (ts : List Trial) (s' : SDPState)
    (h : solve s ts = Except.ok s') (hi : ProbInv s) : ProbInv s' := by
  obtain ⟨h1, h2, h3, h4⟩ := solve_ok_fields s ts s' h
  refine ⟨?_, ?_, ?_⟩
  · have := hi.1
    rw [h3] at *
    omega
  · intro y hy
    rw [h1] at hy
    have := hi.2.1 y hy
    rw [h3]
    omega
  · intro r hr
    rw [h2] at hr
    exact hi.2.2 r hr

lemma probInv_get_nodes (eig : Point → EigVec) (cands : List Point)
    (s : SDPState) (hi : ProbInv s) : ProbInv (get_nodes eig cands s) := by
  have hf := get_nodes_fields eig cands s
  refine ⟨?_, ?_, ?_⟩
  · rw [hf.1, hf.2.2.2.1]; exact hi.1
  · intro y hy
    rw [hf.2.1] at hy
    rw [hf.1, hf.2.2.2.1]
    exact hi.2.1 y hy
  · intro r hr
    rw [hf.2.2.1] at hr
    exact hi.2.2 r hr

lemma probInv_discovery (eig : Point → EigVec) (cands : List Point)
    (s : SDPState) (hi : ProbInv s) : ProbInv (discoveryPhase eig cands s) := by
  unfold discoveryPhase
  split_ifs with h
  · rw [get_nodes_eq eig cands s]
    refine ⟨by simpa using hi.1, ?_, ?_⟩
    · intro y hy
      simp only [List.mem_map] at hy
      obtain ⟨nd, _, rfl⟩ := hy
      simpa using hi.1
    · intro r hr
      exact hi.2.2 r (by simpa using hr)
  · exact hi

lemma probInv_matching (tol : ℚ) (s : SDPState) (hi : ProbInv s) :
    ProbInv (matchingPhase tol s) := by
  unfold matchingPhase
  split_ifs with h
  · refine ⟨by simp, ?_, ?_⟩
    · intro y hy
      simp only [List.length_nil, Nat.add_zero] at *
      have := hi.2.1 y (by simpa using hy)
      omega
    · intro r hr
      exact hi.2.2 r (by simpa using hr)
  · refine ⟨by simp, ?_, ?_⟩
    · intro y hy
      simp only [List.mem_map] at hy
      obtain ⟨z, hz, rfl⟩ := hy
      have h1 := hi.2.1 z hz
      have h2 : s.mins.countP
            (fun x => matchB tol (maxNormSqOf s.pmins) (distSq x z.1))
          ≤ s.mins.length := List.countP_le_length _
      simp only [List.length_nil]
      omega
    · intro r hr
      exact hi.2.2 r (by simpa using hr)

lemma probInv_process (eig : Point → EigVec) (cands : List Point) (tol : ℚ)
    (s : SDPState) (hi : ProbInv s) : ProbInv (process eig cands tol s) :=
  probInv_matching tol _ (probInv_discovery eig cands s hi)

lemma probInv_gen_nodes (eig : Point → EigVec) (cands : List Point)
    (s : SDPState) (hi : ProbInv s) : ProbInv (gen_nodes eig cands s) := by
  unfold gen_nodes
  dsimp only
  have hs1 : ProbInv (if (!s.mins.isEmpty || s.sym_nodes.isEmpty) = true
      then process eig cands defaultTolerance s else s) := by
    split_ifs with h
    · exact probInv_process eig cands defaultTolerance s hi
    · exact hi
  revert hs1
  generalize (if (!s.mins.isEmpty || s.sym_nodes.isEmpty) = true
      then process eig cands defaultTolerance s else s) = s1
  intro hs1
  split_ifs with ht
  · refine ⟨hs1.1, fun y hy => hs1.2.1 y hy, ?_⟩
    intro r hr
    have hr2 : r ∈ s1.pmins.map
        (fun i => (i.1, (i.2.1 : ℚ) / (s1.trials : ℚ), i.2.2)) :=
      (List.mem_insertionSort nodeGE).mp hr
    obtain ⟨z, hz, rfl⟩ := List.mem_map.mp hr2
    have ht' : 0 < s1.trials := Nat.pos_of_ne_zero ht
    have htq : (0 : ℚ) < (s1.trials : ℚ) := by exact_mod_cast ht'
    constructor
    · exact div_nonneg (by positivity) (le_of_lt htq)
    · have hz2 := hs1.2.1 z hz
      have hzc : z.2.1 ≤ 2 * s1.trials := by omega
      rw [div_le_iff₀ htq]
      calc ((z.2.1 : ℕ) : ℚ) ≤ ((2 * s1.trials : ℕ) : ℚ) := by exact_mod_cast hzc
        _ = 2 * (s1.trials : ℚ) := by push_cast; ring
  · refine ⟨hs1.1, fun y hy => hs1.2.1 y hy, ?_⟩
    intro r hr
    obtain ⟨z, hz, rfl⟩ := List.mem_map.mp hr
    norm_num

lemma probInv_step (eig : Point → EigVec) (op : Op) (s s' : SDPState)
    (h : step eig op s = Except.ok s') (hi : ProbInv s) : ProbInv s' := by
  cases op with
  | solveOp ts => exact probInv_solve s ts s' h hi
  | getNodesOp cands =>
      injection h with h2
      subst h2
      exact probInv_get_nodes eig cands s hi
  | processOp cands tol =>
      injection h with h2
      subst h2
      exact probInv_process eig cands tol s hi
  | genNodesOp cands =>
      injection h with h2
      subst h2
      exact probInv_gen_nodes eig cands s hi

lemma probInv_run (eig : Point → EigVec) :
    ∀ (ops : List Op) (s s' : SDPState),
      runOps eig ops s = some s' → ProbInv s → ProbInv s'
  | [], s, s', h, hi => by
      injection h with h2
      subst h2
      exact hi
  | op :: ops, s, s', h, hi => by
      unfold runOps at h
      cases hst : step eig op s with
      | error e => rw [hst] at h; exact Option.noConfusion h
      | ok s1 =>
          rw [hst] at h
          exact probInv_run eig ops s1 s' h (probInv_step eig op s s1 hst hi)

/-- C1 amended: over every run of method calls from a fresh object, every
probability in the ranking built by `gen_nodes` lies in [0, 2]: it is
nonnegative, and bounded by 2 rather than 1 because a single trial can
contribute two raw minima (PSD-solved and NSD-solved both append one). -/
theorem probabilities_in_zero_two (eig : Point → EigVec) (ops : List Op)
    (s' : SDPState) (h : runOps eig ops initState = some s')
    (r : Point × ℚ × EigVec) (hr : r ∈ s'.nodes) :
    0 ≤ r.2.1 ∧ r.2.1 ≤ 2 :=
  (probInv_run eig ops initState s' h probInv_init).2.2 r hr

/-- The state after `solve` ran one doubly-solved trial from scratch. -/
def sMid : SDPState :=
  { initState with
      mins := [p0, p0]
      trials := 1
      fully_bounded_directions := 1
      psd_attempts := 1
      nsd_attempts := 1 }

/-- One doubly-solved trial, then ranking generation. -/
def c1ops : List Op := [Op.solveOp [trialSolvedBoth], Op.genNodesOp [p0]]

/-- The final state of that run: the single node at `p0` received both raw
minima, so its reported probability is 2/1 = 2. -/
def c1Final : SDPState :=
  { initState with
      spec_nodes := [(p0, eigZero p0)]
      pmins := [(p0, 2, eigZero p0)]
      nodes := [(p0, 2, eigZero p0)]
      trials := 1
      fully_bounded_directions := 1
      psd_attempts := 1
      nsd_attempts := 1 }

lemma specCond_zero : specCond (eigZero p0) = true := by
  simp only [specCond, eigZero, Bool.or_eq_true, Bool.and_eq_true,
    decide_eq_true_eq]
  norm_num

lemma matchB_c1 :
    matchB defaultTolerance (maxNormSqOf [(p0, 0, eigZero p0)])
      (distSq p0 p0) = true := by
  have h1 : maxNormSqOf [(p0, 0, eigZero p0)] = 1 := by
    simp [maxNormSqOf, lmax, normSq, p0]
  have h2 : distSq p0 p0 = 0 := by
    simp [distSq, p0]
  rw [h1, h2]
  simp only [matchB, decide_eq_true_eq]
  refine ⟨Or.inl (by norm_num [defaultTolerance]), by positivity⟩

lemma solve_sMid : solve initState [trialSolvedBoth] = Except.ok sMid := by rfl

lemma gen_c1 : gen_nodes eigZero [p0] sMid = c1Final := by
  have hget : get_nodes eigZero [p0] sMid
      = { sMid with spec_nodes := [(p0, eigZero p0)] } := by
    simp only [get_nodes, specCond_zero, if_true]
    simp [sMid, initState]
  have hdisc : discoveryPhase eigZero [p0] sMid
      = { sMid with
            spec_nodes := [(p0, eigZero p0)]
            pmins := [(p0, 0, eigZero p0)] } := by
    unfold discoveryPhase
    rw [if_pos (by rfl), hget]
    simp [sMid, initState]
  have hmatch : matchingPhase defaultTolerance
      ({ sMid with
            spec_nodes := [(p0, eigZero p0)]
            pmins := [(p0, 0, eigZero p0)] })
      = { sMid with
            mins := []
            spec_nodes := [(p0, eigZero p0)]
            pmins := [(p0, 2, eigZero p0)] } := by
    unfold matchingPhase
    rw [if_neg (by simp)]
    simp only [List.map, List.countP, List.countP.go, matchB_c1]
    simp [sMid, initState]
  have hproc : process eigZero [p0] defaultTolerance sMid
      = { sMid with
            mins := []
            spec_nodes := [(p0, eigZero p0)]
            pmins := [(p0, 2, eigZero p0)] } := by
    unfold process
    rw [hdisc, hmatch]
  unfold gen_nodes
  have hc1 : (!sMid.mins.isEmpty || sMid.sym_nodes.isEmpty) = true := by rfl
  rw [if_pos hc1, hproc]
  dsimp only
  split_ifs with h2
  · have hdiv : ((2 : ℕ) : ℚ) / ((1 : ℕ) : ℚ) = 2 := by norm_num
    simp only [List.map, sortNodesDesc, List.insertionSort, List.orderedInsert]
    simp [c1Final, sMid, initState, hdiv]
  · exact absurd (by decide : ¬ (sMid.trials = 0)) (by simpa using h2)

lemma run_c1 : runOps eigZero c1ops initState = some c1Final := by
  simp only [c1ops, runOps, step, solve_sMid, gen_c1]

/-- C1 counterexample: a run with trial count 1 in which the single
spectrahedral node receives both raw minima of the trial (PSD-solved and
NSD-solved) reports probability 2, which is not in [0, 1]. -/
theorem probability_exceeds_one :
    runOps eigZero c1ops initState = some c1Final ∧
    c1Final.trials = 1 ∧
    c1Final.nodes.map (fun r => r.2.1) = [2] ∧
    ¬ ((2 : ℚ) ≤ 1) :=
  ⟨run_c1, rfl, rfl, by norm_num⟩

/-- Witness for C1 amended at the same concrete run. -/
theorem probabilities_in_zero_two_witness :
    0 ≤ (2 : ℚ) ∧ (2 : ℚ) ≤ 2 :=
  probabilities_in_zero_two eigZero c1ops c1Final run_c1
    (p0, 2, eigZero p0) (by simp [c1Final])

/-! ## C9: zero trials -/

/-- C9: when the trial counter is 0, `gen_nodes` reports probability 0 for
every node; the guarded branch never divides by the counter. -/
theorem zero_trials_probability_zero (eig : Point → EigVec)
    (cands : List Point) (s : SDPState) (h : s.trials = 0) :
    (gen_nodes eig cands s).nodes.map (fun r => r.2.1)
      = List.replicate (gen_nodes eig cands s).nodes.length (0 : ℚ) := by
  unfold gen_nodes
  dsimp only
  have htr : (if (!s.mins.isEmpty || s.sym_nodes.isEmpty) = true
      then process eig cands defaultTolerance s else s).trials = 0 := by
    split_ifs with hc
    · rw [(process_fields eig cands defaultTolerance s).2.2.1]; exact h
    · exact h
  revert htr
  generalize (if (!s.mins.isEmpty || s.sym_nodes.isEmpty) = true
      then process eig cands defaultTolerance s else s) = s1
  intro htr
  rw [if_neg (by omega : ¬ s1.trials ≠ 0)]
  simp only [List.map_map, List.length_map]
  rw [show s1.pmins.length
      = (s1.pmins.map ((fun r : Point × ℚ × EigVec => r.2.1)
          ∘ fun i => (i.1, (0 : ℚ), i.2.2))).length
    from (List.length_map _ _).symm]
  refine List.eq_replicate_length.mpr ?_
  intro b hb
  simp only [List.mem_map] at hb
  obtain ⟨z, _, rfl⟩ := hb
  rfl

/-- Witness for C9: a fresh object (trials = 0) with one discovered node
reports probability 0 for it. -/
theorem zero_trials_probability_zero_witness :
    (gen_nodes eigZero [p0] initState).nodes.map (fun r => r.2.1)
      = List.replicate (gen_nodes eigZero [p0] initState).nodes.length
          (0 : ℚ) :=
  zero_trials_probability_zero eigZero [p0] initState rfl

/-! ## C6: the single inclusive matching threshold of `process` -/

lemma lmax_nonneg : ∀ (l : List ℚ), (∀ q ∈ l, 0 ≤ q) → 0 ≤ lmax l
  | [], _ => le_refl 0
  | [x], h => h x (by simp)
  | x :: y :: tl, h => by
      have ih := lmax_nonneg (y :: tl)
        (fun q hq => h q (List.mem_cons_of_mem x hq))
      exact le_trans ih (le_max_right x (lmax (y :: tl)))

/-- The cast-and-root image of the running maximum: taking square roots
commutes with the maximum of a nonempty list. -/
lemma lmax_map_sqrt : ∀ (l : List ℚ), l ≠ [] →
    lmax (l.map (fun q : ℚ => Real.sqrt (q : ℝ)))
      = Real.sqrt ((lmax l : ℚ) : ℝ)
  | [], hne => absurd rfl hne
  | [x], _ => by simp [lmax]
  | x :: y :: tl, _ => by
      have ih := lmax_map_sqrt (y :: tl) (by simp)
      have hsm : Monotone Real.sqrt := fun _ _ hab => Real.sqrt_le_sqrt hab
      have hcm : Monotone (fun q : ℚ => (q : ℝ)) := fun a b hab => by
        show ((a : ℚ) : ℝ) ≤ ((b : ℚ) : ℝ)
        exact_mod_cast hab
      show max (Real.sqrt ((x : ℚ) : ℝ))
          (lmax ((y :: tl).map (fun q : ℚ => Real.sqrt (q : ℝ))))
        = Real.sqrt ((max x (lmax (y :: tl)) : ℚ) : ℝ)
      rw [ih, show ((max x (lmax (y :: tl)) : ℚ) : ℝ)
          = max ((x : ℚ) : ℝ) ((lmax (y :: tl) : ℚ) : ℝ) from hcm.map_max]
      exact (hsm.map_max).symm

/-- The squared matching test is the source's comparison of Euclidean
norms: for nonnegative `m` (a maximum of squared norms),
`matchB tol m d2` holds exactly when `√d2 ≤ tol · √m`. -/
lemma matchB_iff_sqrt (tol m d2 : ℚ) (hm : 0 ≤ m) :
    matchB tol m d2 = true ↔
      Real.sqrt (d2 : ℝ) ≤ (tol : ℝ) * Real.sqrt (m : ℝ) := by
  have hmR : (0 : ℝ) ≤ (m : ℝ) := by exact_mod_cast hm
  rw [Real.sqrt_le_iff]
  simp only [matchB, decide_eq_true_eq]
  constructor
  · rintro ⟨hsign, hle⟩
    constructor
    · rcases hsign with ht | hm0
      · have htR : (0 : ℝ) ≤ (tol : ℝ) := by exact_mod_cast ht
        positivity
      · rw [show ((m : ℚ) : ℝ) = 0 by rw [hm0]; norm_num]
        simp [Real.sqrt_zero]
    · have h2 : ((d2 : ℚ) : ℝ) ≤ ((tol : ℚ) : ℝ) ^ 2 * ((m : ℚ) : ℝ) := by
        exact_mod_cast hle
      calc ((d2 : ℚ) : ℝ) ≤ ((tol : ℚ) : ℝ) ^ 2 * ((m : ℚ) : ℝ) := h2
        _ = (((tol : ℚ) : ℝ) * Real.sqrt ((m : ℚ) : ℝ)) ^ 2 := by
            rw [mul_pow, Real.sq_sqrt hmR]
  · rintro ⟨h0, hle⟩
    constructor
    · by_cases hm0 : m = 0
      · exact Or.inr hm0
      · left
        have hmpos : (0 : ℝ) < (m : ℝ) :=
          lt_of_le_of_ne hmR (by exact_mod_cast Ne.symm hm0)
        have hsp : 0 < Real.sqrt ((m : ℚ) : ℝ) := Real.sqrt_pos.mpr hmpos
        by_contra hneg
        push_neg at hneg
        have hnegR : ((tol : ℚ) : ℝ) < 0 := by exact_mod_cast hneg
        nlinarith
    · have h2 : ((d2 : ℚ) : ℝ)
          ≤ (((tol : ℚ) : ℝ) * Real.sqrt ((m : ℚ) : ℝ)) ^ 2 := hle
      rw [mul_pow, Real.sq_sqrt hmR] at h2
      exact_mod_cast h2

lemma getD_map_lt {α β : Type _} (l : List α) (f : α → β) (i : ℕ)
    (h : i < l.length) (d : α) (d' : β) :
    (l.map f).getD i d' = f (l.getD i d) := by
  induction l generalizing i with
  | nil => simp at h
  | cons a tl ih =>
      cases i with
      | zero => rfl
      | succ n =>
          show (tl.map f).getD n d' = f (tl.getD n d)
          exact ih n (by simpa using h)

lemma matchingPhase_pmins (tol : ℚ) (s : SDPState)
    (h : ¬ s.pmins.isEmpty = true) :
    (matchingPhase tol s).pmins = s.pmins.map (fun y =>
      (y.1,
       y.2.1 + s.mins.countP
         (fun x => matchB tol (maxNormSqOf s.pmins) (distSq x y.1)),
       y.2.2)) := by
  unfold matchingPhase
  dsimp only
  rw [if_neg h]

/-- C6: `process` derives one global threshold
`maxdelta = tolerance · max ‖node‖₂` (the square of which is
`tol² · maxNormSqOf pmins`), uses it for every node — the count update of
the i-th node below does not depend on i except through its own point —
and increments a node's count for a raw minimum exactly when their
Euclidean distance is at most that threshold, inclusively: for every
candidate raw minimum `x`, the Boolean match test is equivalent to
`√(distSq x node) ≤ tol · max ‖node'‖₂`. -/
theorem process_single_threshold (eig : Point → EigVec) (cands : List Point)
    (tol : ℚ) (s : SDPState) (i : ℕ) (x : Point)
    (h : i < (discoveryPhase eig cands s).pmins.length) :
    ((process eig cands tol s).pmins.getD i pdflt).2.1
      = (((discoveryPhase eig cands s).pmins.getD i pdflt).2.1
         + (discoveryPhase eig cands s).mins.countP
             (fun x2 => matchB tol
               (maxNormSqOf (discoveryPhase eig cands s).pmins)
               (distSq x2
                 (((discoveryPhase eig cands s).pmins.getD i pdflt).1)))) ∧
    (matchB tol (maxNormSqOf (discoveryPhase eig cands s).pmins)
        (distSq x (((discoveryPhase eig cands s).pmins.getD i pdflt).1))
        = true
      ↔ Real.sqrt
          ((distSq x
            (((discoveryPhase eig cands s).pmins.getD i pdflt).1) : ℝ))
          ≤ (tol : ℝ)
            * lmax ((discoveryPhase eig cands s).pmins.map
                (fun y => Real.sqrt ((normSq y.1 : ℝ))))) := by
  have hne : ¬ (discoveryPhase eig cands s).pmins.isEmpty = true := by
    cases hp : (discoveryPhase eig cands s).pmins
    · rw [hp] at h; simp at h
    · simp [hp]
  constructor
  · show ((matchingPhase tol (discoveryPhase eig cands s)).pmins.getD
        i pdflt).2.1 = _
    rw [matchingPhase_pmins tol _ hne,
      getD_map_lt (discoveryPhase eig cands s).pmins _ i h pdflt pdflt]
  · have hmax_nonneg : 0 ≤ maxNormSqOf (discoveryPhase eig cands s).pmins := by
      apply lmax_nonneg
      intro q hq
      obtain ⟨y, _, rfl⟩ := List.mem_map.mp hq
      unfold normSq
      positivity
    rw [matchB_iff_sqrt tol _ _ hmax_nonneg]
    have hmapne : (discoveryPhase eig cands s).pmins.map
        (fun y => normSq y.1) ≠ [] := by
      cases hp : (discoveryPhase eig cands s).pmins
      · rw [hp] at h; simp at h
      · simp [hp]
    have hl := lmax_map_sqrt
      ((discoveryPhase eig cands s).pmins.map (fun y => normSq y.1)) hmapne
    rw [List.map_map] at hl
    simp only [Function.comp_def] at hl
    unfold maxNormSqOf
    rw [← hl]

/-- A state with one known spectrahedral node at (3,4,0) (norm 5) and one
raw minimum at (8,4,0), at Euclidean distance exactly 5 from the node. -/
def cs6 : SDPState :=
  { initState with
      mins := [(8, 4, 0)]
      pmins := [((3, 4, 0), 0, eigZero p0)]
      spec_nodes := [((3, 4, 0), eigZero p0)] }

/-- Witness for C6 at tolerance 1: the threshold is `1 · ‖(3,4,0)‖ = 5`
and the raw minimum sits exactly on the boundary. -/
theorem process_single_threshold_witness :
    ((process eigZero [] 1 cs6).pmins.getD 0 pdflt).2.1
      = ((cs6.pmins.getD 0 pdflt).2.1
         + cs6.mins.countP
             (fun x2 => matchB 1 (maxNormSqOf cs6.pmins)
               (distSq x2 ((cs6.pmins.getD 0 pdflt).1)))) ∧
    (matchB 1 (maxNormSqOf cs6.pmins)
        (distSq (8, 4, 0) ((cs6.pmins.getD 0 pdflt).1)) = true
      ↔ Real.sqrt ((distSq (8, 4, 0) ((cs6.pmins.getD 0 pdflt).1) : ℝ))
          ≤ ((1 : ℚ) : ℝ)
            * lmax (cs6.pmins.map (fun y => Real.sqrt ((normSq y.1 : ℝ))))) :=
  process_single_threshold eigZero [] 1 cs6 0 (8, 4, 0)
    (by simp [discoveryPhase, cs6, initState])

end SDPVerify
